import Mathlib

/-!
Verification of the conversation-relay bot core: a shallow embedding of
`context_manager.py`, `ai_client.py` and `filters.py`, together with proofs
settling the specification claims about them.

Strings are modelled as `List Char` (Python `str` semantics); machine time
(`datetime.now()`) is passed in explicitly as a `Nat` instant; network effects
of the inference client are modelled by an explicit list of per-attempt
outcomes.
-/

set_option autoImplicit false

namespace Bot

/-! ### Python primitive helpers -/

/-- Python whitespace class (`str.split`, `str.strip`, regex `\s`), restricted
to the ASCII whitespace characters that occur in chat text. -/
def isPyWs (c : Char) : Bool :=
  c = ' ' || c = '\t' || c = '\n' || c = '\r' || c = Char.ofNat 11 || c = Char.ofNat 12

/-- Python `str.lstrip()`: drop leading whitespace. -/
def lstrip (cs : List Char) : List Char :=
  cs.dropWhile isPyWs

/-- Python `str.rstrip()`: drop trailing whitespace. -/
def rstrip : List Char → List Char
  | [] => []
  | c :: rest =>
    match rstrip rest with
    | [] => if isPyWs c then [] else [c]
    | r => c :: r

/-- Python `str.strip()`: drop whitespace at both ends. -/
def pyStrip (cs : List Char) : List Char :=
  rstrip (lstrip cs)

/-- Head-character whitespace test, `false` on the empty list. -/
def headIsWs : List Char → Bool
  | [] => false
  | c :: _ => isPyWs c

/-- Worker for `collapseWs`; the flag records whether the previous character
was part of a whitespace run whose single replacement space was already
emitted. -/
def collapseGo : Bool → List Char → List Char
  | _, [] => []
  | prevWs, c :: cs =>
    if isPyWs c then
      if prevWs then collapseGo true cs
      else ' ' :: collapseGo true cs
    else c :: collapseGo false cs

/-- Python `re.sub(r'\s+', ' ', text)`: every maximal whitespace run becomes a
single space. -/
def collapseWs (cs : List Char) : List Char :=
  collapseGo false cs

/-- A list is collapsed when every whitespace character in it is a plain space
and no two whitespace characters are adjacent (the shape `collapseWs`
produces). -/
def collapsedOk : List Char → Bool
  | [] => true
  | c :: rest =>
    ((!isPyWs c) || c = ' ') && ((!isPyWs c) || (!headIsWs rest)) && collapsedOk rest

/-- Worker for `pySplit`, carrying the current word reversed. -/
def splitAux : List Char → List Char → List (List Char)
  | [], acc => if acc.isEmpty then [] else [acc.reverse]
  | c :: cs, acc =>
    if isPyWs c then
      if acc.isEmpty then splitAux cs [] else acc.reverse :: splitAux cs []
    else splitAux cs (c :: acc)

/-- Python `str.split()` with no argument: split on whitespace runs, dropping
empty fields. -/
def pySplit (cs : List Char) : List (List Char) :=
  splitAux cs []

/-- Python `' '.join(words)`. -/
def joinSp : List (List Char) → List Char
  | [] => []
  | [w] => w
  | w :: rest => w ++ ' ' :: joinSp rest

/-- Python `' '.join(text.split())`: collapse whitespace runs to single spaces
and trim the ends. -/
def joinWords (cs : List Char) : List Char :=
  joinSp (pySplit cs)

/-- Python slice `xs[-n:]` for a nonnegative `n`. For `n = 0` the slice is
`xs[0:]`, i.e. the whole list (`-0 == 0` in Python); for `n ≥ 1` it keeps the
last `min n (length xs)` elements. -/
def pyTakeLast {α : Type} (n : Nat) (xs : List α) : List α :=
  if n = 0 then xs else xs.drop (xs.length - n)

/-- Length of the leading run of `c` in `xs`. -/
def countLead (c : Char) : List Char → Nat
  | [] => 0
  | d :: rest => if d = c then countLead c rest + 1 else 0

/-- Model of `re.search(r'(.)\1{10,}', text)`: some character other than a
newline (the regex `.` does not match `\n`) occurs at least 11 times in a row
(the captured character plus 10 or more backreference repetitions). -/
def hasRepeatRun : List Char → Bool
  | [] => false
  | c :: rest => (decide (c ≠ '\n') && decide (10 ≤ countLead c rest)) || hasRepeatRun rest

/-- Worker for `countSub`: `skip` counts characters still to pass over after a
match, so that occurrences are counted non-overlapping, as Python
`str.count` does. -/
def countSubGo (needle : List Char) : List Char → Nat → Nat
  | [], _ => 0
  | _ :: rest, Nat.succ skip => countSubGo needle rest skip
  | c :: rest, 0 =>
    if needle.isPrefixOf (c :: rest) then countSubGo needle rest (needle.length - 1) + 1
    else countSubGo needle rest 0

/-- Python `hay.count(needle)` for a nonempty needle: number of
non-overlapping occurrences. -/
def countSub (needle hay : List Char) : Nat :=
  countSubGo needle hay 0

/-- Python `needle in hay` substring containment. -/
def isSubstring (needle : List Char) : List Char → Bool
  | [] => needle.isEmpty
  | c :: rest => needle.isPrefixOf (c :: rest) || isSubstring needle rest

/-- Per-character `str.isupper`, covering the ASCII and basic Cyrillic
letters that occur in this bot's chat text. -/
def isUpperCh (c : Char) : Bool :=
  (65 ≤ c.toNat && c.toNat ≤ 90) || (0x410 ≤ c.toNat && c.toNat ≤ 0x42F) || c.toNat = 0x401

/-- ASCII lowercasing (`str.lower` for the ASCII range). -/
def toLowerCh (c : Char) : Char :=
  c.toLower

/-! ### `filters.py` — ContentFilter -/

/-- A latin letter, i.e. a character matched by the regex class `[a-z]` under
`re.IGNORECASE` (code points of `a`–`z` and `A`–`Z`). -/
def isLatinLetter (c : Char) : Bool :=
  (97 ≤ c.toNat && c.toNat ≤ 122) || (65 ≤ c.toNat && c.toNat ≤ 90)

/-- A decimal digit, the regex class `[0-9]` (code points of `0`–`9`). -/
def isAsciiDigit (c : Char) : Bool :=
  48 ≤ c.toNat && c.toNat ≤ 57

/-- A regex word character (`\w`, which also bounds `\b`): ASCII
alphanumerics, underscore, and — standing in for the full Unicode class —
the basic Cyrillic letters that occur in this bot's chat text. -/
def isWordChar (c : Char) : Bool :=
  isLatinLetter c || isAsciiDigit c || c = '_'
    || (Char.ofNat 0x410 ≤ c && c ≤ Char.ofNat 0x44F) || c = Char.ofNat 0x451 || c = Char.ofNat 0x401

/-- Worker for `wordRuns`, carrying the current run reversed. -/
def wordRunsGo : List Char → List Char → List (List Char)
  | acc, [] => if acc.isEmpty then [] else [acc.reverse]
  | acc, c :: rest =>
    if isWordChar c then wordRunsGo (c :: acc) rest
    else if acc.isEmpty then wordRunsGo [] rest
    else acc.reverse :: wordRunsGo [] rest

/-- The maximal runs of word characters of a text. Because `\b` holds exactly
at the edges of such runs and the two filter regexes consist solely of word
characters between two `\b`, any regex match spans exactly one of these
runs. -/
def wordRuns (cs : List Char) : List (List Char) :=
  wordRunsGo [] cs

/-- The character `x` up to case, the regex `[x]` under `re.IGNORECASE`. -/
def isXCh (c : Char) : Bool :=
  c = 'x' || c = 'X'

/-- Two adjacent `x`/`X` characters occur. -/
def hasDoubleX : List Char → Bool
  | [] => false
  | [_] => false
  | c :: d :: rest => (isXCh c && isXCh d) || hasDoubleX (d :: rest)

/-- A full word run matches `\b(?:[a-z]*[x]{2,}[a-z]*)\b` (IGNORECASE): the
run consists of latin letters only and contains two adjacent `x`s (the
`[a-z]*` parts absorb everything around the `x` run). -/
def matchesXRegex (r : List Char) : Bool :=
  r.all isLatinLetter && hasDoubleX r

/-- A full word run matches `\b(?:[a-z]*[0-9]{2,}[a-z]*)\b` (IGNORECASE).
Since the letter and digit classes are disjoint, a match exists exactly when
the greedy decomposition letters-then-digits-then-letters consumes the whole
run with at least two digits. -/
def matchesDigitRegex (r : List Char) : Bool :=
  let a := r.takeWhile isLatinLetter
  let rest := r.drop a.length
  let b := rest.takeWhile isAsciiDigit
  let c := rest.drop b.length
  decide (2 ≤ b.length) && c.all isLatinLetter

/-- Model of `ContentFilter.contains_bad_words`: a configured denylist word occurs as a
substring of the lowercased text, or one of the two compiled regex patterns
(masked profanity `xx`, digit-substituted letters) matches the text. -/
def contains_bad_words (badWords : List (List Char)) (text : List Char) : Bool :=
  if text.isEmpty then false
  else
    let lower := text.map toLowerCh
    badWords.any (fun w => isSubstring w lower)
      || (wordRuns text).any matchesXRegex
      || (wordRuns text).any matchesDigitRegex

/-! ### `filters.py` — InputValidator -/

/-- Model of `InputValidator.is_valid_message`: rejects empty/whitespace-only text,
text longer than 1000 characters, and text containing the repeated-character
spam pattern `(.)\1{10,}`; returns the validity flag and the reason string. -/
def is_valid_message (text : List Char) : Bool × String :=
  if text.isEmpty || (pyStrip text).isEmpty then
    (false, "Пустое сообщение")
  else if (pyStrip text).length < 1 then
    (false, "Слишком короткое сообщение")
  else if 1000 < text.length then
    (false, "Сообщение слишком длинное")
  else if hasRepeatRun text then
    (false, "Сообщение содержит слишком много повторяющихся символов")
  else
    (true, "OK")

/-- Model of `InputValidator.sanitize_text`: strip the ends, collapse internal
whitespace runs to single spaces, and truncate to 1000 characters with an
ellipsis marker. -/
def sanitize_text (text : List Char) : List Char :=
  let t1 := pyStrip text
  let t2 := collapseWs t1
  if 1000 < t2.length then t2.take 1000 ++ ['.', '.', '.'] else t2

/-! ### `context_manager.py` -/

/-- One entry of a dialog history: the dict
`{'role': ..., 'content': ..., 'timestamp': ...}` built by `add_message`,
with the instant modelled as a `Nat`. -/
structure Message where
  role : String
  content : String
  timestamp : Nat
deriving DecidableEq

/-- The `DialogContext` class: per-user rolling history plus session-liveness
metadata. The unused `user_data` dict is omitted. -/
structure DialogContext where
  user_id : Int
  max_length : Nat
  timeout : Nat
  created_at : Nat
  updated_at : Nat
  messages : List Message
deriving DecidableEq

/-- A freshly constructed `DialogContext(user_id, max_length, timeout)` at
instant `now`. -/
def DialogContext.init (u : Int) (maxLength tmo now : Nat) : DialogContext :=
  ⟨u, maxLength, tmo, now, now, []⟩

/-- Model of `DialogContext.add_message`: refresh `updated_at`, append the new entry,
then truncate with the Python slice `messages[-max_length:]` whenever the
length exceeds the cap. -/
def DialogContext.add_message (now : Nat) (role content : String) (ctx : DialogContext) :
    DialogContext :=
  let msgs := ctx.messages ++ [⟨role, content, now⟩]
  { ctx with
    updated_at := now
    messages := if ctx.max_length < msgs.length then pyTakeLast ctx.max_length msgs else msgs }

/-- Model of `DialogContext.clear_history`: empty the message list and refresh
`updated_at` to the current instant. -/
def DialogContext.clear_history (now : Nat) (ctx : DialogContext) : DialogContext :=
  { ctx with messages := [], updated_at := now }

/-- Model of `DialogContext.is_expired`: the current instant is strictly past
`updated_at + timeout`. -/
def DialogContext.is_expired (now : Nat) (ctx : DialogContext) : Bool :=
  ctx.updated_at + ctx.timeout < now

/-- The `ContextManager` class: configuration plus the `user_id → DialogContext` dict,
modelled as an association list. -/
structure ContextManager where
  max_context_length : Nat
  session_timeout : Nat
  contexts : List (Int × DialogContext)
deriving DecidableEq

/-- Dict lookup `self.contexts[user_id]` (`None` when absent). -/
def ContextManager.lookup (cm : ContextManager) (u : Int) : Option DialogContext :=
  (cm.contexts.find? (fun p => p.1 = u)).map (fun p => p.2)

/-- Dict store `self.contexts[user_id] = ctx`. -/
def ContextManager.store (cm : ContextManager) (u : Int) (ctx : DialogContext) : ContextManager :=
  { cm with contexts := (u, ctx) :: cm.contexts.filter (fun p => p.1 ≠ u) }

/-- Model of `ContextManager.get_context`: return the live context of the user, or
replace a missing/expired one by a fresh empty context. Returns the context
together with the updated manager. -/
def ContextManager.get_context (now : Nat) (u : Int) (cm : ContextManager) :
    DialogContext × ContextManager :=
  match cm.lookup u with
  | some ctx =>
    if ctx.is_expired now then
      let fresh := DialogContext.init u cm.max_context_length cm.session_timeout now
      (fresh, cm.store u fresh)
    else (ctx, cm)
  | none =>
    let fresh := DialogContext.init u cm.max_context_length cm.session_timeout now
    (fresh, cm.store u fresh)

/-- Model of `ContextManager.add_user_message`. -/
def ContextManager.add_user_message (now : Nat) (u : Int) (msg : String) (cm : ContextManager) :
    ContextManager :=
  let (ctx, cm1) := cm.get_context now u
  cm1.store u (ctx.add_message now "user" msg)

/-- Model of `ContextManager.add_bot_message`. -/
def ContextManager.add_bot_message (now : Nat) (u : Int) (msg : String) (cm : ContextManager) :
    ContextManager :=
  let (ctx, cm1) := cm.get_context now u
  cm1.store u (ctx.add_message now "assistant" msg)

/-- Model of `ContextManager.get_conversation_history` (the `.copy()` is the identity
in a functional model). Returns the history together with the possibly
updated manager. -/
def ContextManager.get_conversation_history (now : Nat) (u : Int) (cm : ContextManager) :
    List Message × ContextManager :=
  let (ctx, cm1) := cm.get_context now u
  (ctx.messages, cm1)

/-- Model of `ContextManager.clear_user_context`: when a record for the user exists
(expired or not — no `get_context` call here), clear its history and report
`true`; otherwise report `false`. -/
def ContextManager.clear_user_context (now : Nat) (u : Int) (cm : ContextManager) :
    Bool × ContextManager :=
  match cm.lookup u with
  | some ctx => (true, cm.store u (ctx.clear_history now))
  | none => (false, cm)

/-! ### `ai_client.py` — HuggingFaceClient

The configuration module `config.py` is not part of the sources; the fixed
user-facing strings it provides are modelled below, and `MAX_RETRIES` is a
parameter of the generation loop. -/

/-- Modelled from the spec: the fixed user-facing timeout message
`config.MESSAGES['api_timeout']` of the configuration surface (`config.py`
is absent from the sources); its exact wording is immaterial here. -/
def msg_api_timeout : String :=
  "Превышено время ожидания ответа. Попробуйте позже."

/-- Modelled from the spec: the fixed generic error message
`config.MESSAGES['error']` of the configuration surface. -/
def msg_error : String :=
  "Произошла ошибка. Попробуйте еще раз."

/-- Modelled from the spec: the fixed content warning
`config.MESSAGES['content_warning']` of the configuration surface. -/
def msg_content_warning : String :=
  "Пожалуйста, соблюдайте правила общения."

/-- The sentence-terminal punctuation accepted by `_clean_response`
(`['.', '!', '?', ':', ')', ']', '}']`; the closing brace is written via its
code point). -/
def terminalPunct : List Char :=
  ['.', '!', '?', ':', ')', ']', Char.ofNat 125]

/-- The last character exists and is sentence-terminal punctuation. -/
def endsTerminal (cs : List Char) : Bool :=
  match cs.getLast? with
  | some c => terminalPunct.contains c
  | none => false

/-- Model of `HuggingFaceClient._clean_response`: collapse whitespace via
`' '.join(text.split())`, truncate over-long text to 1000 characters plus an
ellipsis, append a period when the last character is not terminal
punctuation, and finally `strip()`. -/
def _clean_response (text : List Char) : List Char :=
  if text.isEmpty then text
  else
    let t1 := joinWords text
    let t2 := if 1000 < t1.length then t1.take 1000 ++ ['.', '.', '.'] else t1
    let t3 := if !t2.isEmpty && !endsTerminal t2 then t2 ++ ['.'] else t2
    pyStrip t3

/-- The function `_clean_response` lifted to `String`. -/
def cleanResponseS (s : String) : String :=
  String.mk (_clean_response s.data)

/-- The canned prompt used when the history is empty. -/
def emptyHistoryPrompt : String :=
  "Ты полезный AI-ассистент. Начни разговор приветствием."

/-- The fixed system preamble of every non-empty prompt. -/
def systemPreamble : String :=
  "Ты - полезный AI-ассистент для Telegram бота. Веди естественную беседу."

/-- Python `sep.join(parts)`. -/
def joinStrings (sep : String) : List String → String
  | [] => ""
  | [a] => a
  | a :: rest => a ++ sep ++ joinStrings sep rest

/-- One history entry rendered as `"<RoleLabel>: <content>"`; entries with an
unknown role are skipped. -/
def renderMsg (m : Message) : Option String :=
  if m.role = "user" then some ("Пользователь: " ++ m.content)
  else if m.role = "assistant" then some ("Ассистент: " ++ m.content)
  else none

/-- Model of `HuggingFaceClient._build_prompt`: the canned greeting prompt for an
empty history, else the system preamble, the last six history entries
rendered with role labels, and a trailing bare assistant marker, joined with
newlines. -/
def _build_prompt (history : List Message) : String :=
  if history.isEmpty then emptyHistoryPrompt
  else
    let recent := pyTakeLast 6 history
    joinStrings "\n" (systemPreamble :: (recent.filterMap renderMsg ++ ["Ассистент:"]))

/-- The shapes of a decoded HTTP 200 JSON body that
`_extract_generated_text` distinguishes: a list whose entries either are
dicts carrying `generated_text` (`some s`) or anything else (`none`); a dict
with `generated_text`; a dict with `text`; anything else. -/
inductive RespPayload where
  | listOf (items : List (Option String))
  | objGenerated (s : String)
  | objText (s : String)
  | other
deriving DecidableEq

/-- The assistant role marker echoed by some models. -/
def assistantMarker : String := "Ассистент:"

/-- The echo-stripping step `text.split('Ассистент:')[-1].strip()` applied only when the marker
occurs in the text, as in the source. -/
def stripMarkerEcho (t : String) : String :=
  match t.splitOn assistantMarker with
  | [] => t
  | [_] => t
  | parts => String.mk (pyStrip (parts.getLastD "").data)

/-- The list branch of `_extract_generated_text`: the first entry carrying a
`generated_text` field wins and has a prompt echo stripped. -/
def extractFromList : List (Option String) → Option String
  | [] => none
  | some t :: _ => some (stripMarkerEcho t)
  | none :: rest => extractFromList rest

/-- Model of `HuggingFaceClient._extract_generated_text`. -/
def _extract_generated_text : RespPayload → Option String
  | .listOf items => extractFromList items
  | .objGenerated s => some s
  | .objText s => some s
  | .other => none

/-- The response cache, modelling `cachetools.TTLCache(maxsize=100, ttl=300)`
as key/value/insertion-instant triples. The claims under verification never
exceed the capacity bound, so the 100-entry eviction is not modelled. -/
abbrev Cache : Type := List (String × String × Nat)

/-- Cache lookup: an entry answers only within 300 seconds of insertion. -/
def cacheLookup (now : Nat) (cache : Cache) (key : String) : Option String :=
  match cache.find? (fun e => e.1 = key) with
  | some e => if now < e.2.2 + 300 then some e.2.1 else none
  | none => none

/-- Cache store `self.cache[cache_key] = cleaned_text`. -/
def cacheInsert (now : Nat) (cache : Cache) (key val : String) : Cache :=
  (key, val, now) :: cache.filter (fun e => e.1 ≠ key)

/-- Deterministic serialization of one history entry, used by the cache
key. -/
def reprMessage (m : Message) : String :=
  m.role ++ "|" ++ m.content ++ "|" ++ toString m.timestamp

/-- The cache key `str(hash(str(conversation_history)))`: Python's in-process
`hash` is an unspecified deterministic function of the serialized history, so
it is modelled by the serialization itself (hash collisions play no role in
the claims). -/
def cache_key (h : List Message) : String :=
  joinStrings ";" (h.map reprMessage)

/-- The outcome of one network attempt, as observed by the retry loop: an
HTTP response with a decoded body, a `requests` timeout, another
`requests.exceptions.RequestException`, or any other raised exception
(including JSON decoding failures). -/
inductive Outcome where
  | http (status : Nat) (payload : RespPayload)
  | timeout
  | requestError
  | otherError
deriving DecidableEq

/-- What one `generate_response` call produced: the Python return value
(`none` models `None`), the backoff sleeps performed in order, the resulting
cache, and the number of network round trips issued. -/
structure GenResult where
  reply : Option String
  waits : List Nat
  cache : Cache
  networkCalls : Nat

/-- The `for attempt in range(MAX_RETRIES)` retry loop of
`generate_response`; `outcomes` supplies the network behaviour of the
successive attempts. -/
def genAttempts (maxRetries now : Nat) (key : String) (history : List Message) :
    Nat → List Outcome → Cache → List Nat → Nat → GenResult
  | attempt, outcomes, cache, waits, calls =>
    if maxRetries ≤ attempt then ⟨none, waits, cache, calls⟩
    else if _build_prompt history = "" then
      ⟨some "Привет! Как я могу вам помочь?", waits, cache, calls⟩
    else
      match outcomes with
      | [] => ⟨none, waits, cache, calls⟩
      | o :: rest =>
        match o with
        | .http status payload =>
          if status = 200 then
            match _extract_generated_text payload with
            | some t =>
              if t = "" then
                if attempt = maxRetries - 1 then
                  ⟨some "Извините, не удалось сгенерировать ответ. Попробуйте еще раз.",
                    waits, cache, calls + 1⟩
                else genAttempts maxRetries now key history (attempt + 1) rest cache waits (calls + 1)
              else
                let cleaned := cleanResponseS t
                ⟨some cleaned, waits, cacheInsert now cache key cleaned, calls + 1⟩
            | none =>
              if attempt = maxRetries - 1 then
                ⟨some "Извините, не удалось сгенерировать ответ. Попробуйте еще раз.",
                  waits, cache, calls + 1⟩
              else genAttempts maxRetries now key history (attempt + 1) rest cache waits (calls + 1)
          else if status = 503 then
            genAttempts maxRetries now key history (attempt + 1) rest cache
              (waits ++ [(attempt + 1) * 5]) (calls + 1)
          else if status = 429 then
            genAttempts maxRetries now key history (attempt + 1) rest cache
              (waits ++ [10]) (calls + 1)
          else
            if attempt = maxRetries - 1 then ⟨none, waits, cache, calls + 1⟩
            else genAttempts maxRetries now key history (attempt + 1) rest cache waits (calls + 1)
        | .timeout =>
          if attempt = maxRetries - 1 then ⟨some msg_api_timeout, waits, cache, calls + 1⟩
          else genAttempts maxRetries now key history (attempt + 1) rest cache waits (calls + 1)
        | .requestError =>
          if attempt = maxRetries - 1 then ⟨none, waits, cache, calls + 1⟩
          else genAttempts maxRetries now key history (attempt + 1) rest cache waits (calls + 1)
        | .otherError =>
          if attempt = maxRetries - 1 then ⟨none, waits, cache, calls + 1⟩
          else genAttempts maxRetries now key history (attempt + 1) rest cache waits (calls + 1)

/-- Model of `HuggingFaceClient.generate_response`: answer from the cache when a live
entry exists, otherwise run the retry loop. -/
def generate_response (maxRetries now : Nat) (cache : Cache) (history : List Message)
    (outcomes : List Outcome) : GenResult :=
  let key := cache_key history
  match cacheLookup now cache key with
  | some v => ⟨some v, [], cache, 0⟩
  | none => genAttempts maxRetries now key history 0 outcomes cache [] 0

/-! ### `ai_client.py` — AIService -/

/-- The excessive-uppercase check of `contains_inappropriate_content`:
`sum(1 for c in text if c.isupper()) > len(text) * 0.7`. The float factor
`0.7` is modelled as the rational `7/10`, i.e. `10·count > 7·len`. -/
def too_many_caps (text : List Char) : Bool :=
  7 * text.length < 10 * text.countP isUpperCh

/-- The word-repetition check of `contains_inappropriate_content`:
some word among the first ten of the lowercased text occurs more than five
times as a substring (`str.count`). -/
def too_many_repeats (lower : List Char) : Bool :=
  ((pySplit lower).take 10).any (fun w => 5 < countSub w lower)

/-- Model of `AIService.contains_inappropriate_content`: denylist containment on the
lowercased text, the excessive-uppercase check, or the word-repetition
check. -/
def contains_inappropriate_content (badWords : List (List Char)) (text : List Char) : Bool :=
  if text.isEmpty then false
  else
    let lower := text.map toLowerCh
    badWords.any (fun w => isSubstring w lower) || too_many_caps text || too_many_repeats lower

/-- What one `AIService.process_message` call produced: the reply text, the
updated context store, and the updated response cache. -/
structure ProcessResult where
  reply : String
  cm : ContextManager
  cache : Cache

/-- Model of `AIService.process_message`: gate the content, record the user message,
read the history, call `generate_response`, and — whenever the returned
value is a truthy string — record it as the assistant reply; otherwise
answer with the fixed error message. -/
def process_message (badWords : List (List Char)) (maxRetries now : Nat) (cache : Cache)
    (outcomes : List Outcome) (u : Int) (message : String) (cm : ContextManager) :
    ProcessResult :=
  if contains_inappropriate_content badWords message.data then
    ⟨msg_content_warning, cm, cache⟩
  else
    let cm1 := cm.add_user_message now u message
    let (hist, cm2) := cm1.get_conversation_history now u
    let r := generate_response maxRetries now cache hist outcomes
    match r.reply with
    | some t =>
      if t = "" then ⟨msg_error, cm2, r.cache⟩
      else ⟨t, cm2.add_bot_message now u t, r.cache⟩
    | none => ⟨msg_error, cm2, r.cache⟩

/-! ### Helper lemmas: FIFO history truncation (claim C1) -/

/-- The last `L` elements of a list (all of it when it is shorter). -/
def keepLast {α : Type} (L : Nat) (xs : List α) : List α :=
  xs.drop (xs.length - L)

/-- One append step as the stored message dict. -/
def mkStep (s : Nat × String × String) : Message :=
  ⟨s.2.1, s.2.2, s.1⟩

/-- A sequence of `add_message` calls, oldest first; each step carries
(instant, role, content). -/
def addMany (ctx : DialogContext) : List (Nat × String × String) → DialogContext
  | [] => ctx
  | s :: rest => addMany (ctx.add_message s.1 s.2.1 s.2.2) rest

/-- Claim-side predicate for C10: the text contains two or more consecutive
decimal digits somewhere. -/
def hasTwoConsecDigits : List Char → Bool
  | [] => false
  | [_] => false
  | c :: d :: rest => (isAsciiDigit c && isAsciiDigit d) || hasTwoConsecDigits (d :: rest)

theorem keepLast_of_le {α : Type} {L : Nat} {xs : List α} (h : xs.length ≤ L) :
    keepLast L xs = xs := by
  unfold keepLast
  rw [Nat.sub_eq_zero_of_le h, List.drop_zero]

theorem keepLast_length {α : Type} (L : Nat) (xs : List α) :
    (keepLast L xs).length = min L xs.length := by
  unfold keepLast
  rw [List.length_drop]
  omega

theorem keepLast_append_keepLast {α : Type} (L : Nat) (xs ys : List α) :
    keepLast L (keepLast L xs ++ ys) = keepLast L (xs ++ ys) := by
  rcases Nat.le_total xs.length L with h | h
  · rw [keepLast_of_le h]
  · unfold keepLast
    rw [List.length_append, List.length_append, List.length_drop,
      List.drop_append_eq_append_drop, List.drop_append_eq_append_drop, List.drop_drop,
      List.length_drop]
    congr 2 <;> omega

/-- The truncation step of `add_message` agrees with `keepLast` whenever the
cap is at least one. -/
theorem truncate_eq_keepLast {L : Nat} (hL : 1 ≤ L) (xs : List Message) :
    (if L < xs.length then pyTakeLast L xs else xs) = keepLast L xs := by
  by_cases h : L < xs.length
  · rw [if_pos h]
    unfold pyTakeLast keepLast
    rw [if_neg (by omega)]
  · rw [if_neg h, keepLast_of_le (by omega)]

/-- The method `add_message` keeps the cap and appends FIFO-style, provided the cap is
at least one (for `max_length = 0` the Python slice `[-0:]` keeps
everything — see the C1 counterexample). -/
theorem add_message_messages (now : Nat) (r c : String) (ctx : DialogContext)
    (hL : 1 ≤ ctx.max_length) :
    (ctx.add_message now r c).messages
      = keepLast ctx.max_length (ctx.messages ++ [⟨r, c, now⟩]) := by
  have h0 : (ctx.add_message now r c).messages
      = (if ctx.max_length < (ctx.messages ++ [(⟨r, c, now⟩ : Message)]).length then
          pyTakeLast ctx.max_length (ctx.messages ++ [⟨r, c, now⟩])
        else ctx.messages ++ [⟨r, c, now⟩]) := rfl
  rw [h0, truncate_eq_keepLast hL]

theorem add_message_max_length (now : Nat) (r c : String) (ctx : DialogContext) :
    (ctx.add_message now r c).max_length = ctx.max_length := rfl

/-- Invariant of a run of appends: the stored history is always exactly the
last `max_length` of everything ever appended (cap at least one). -/
theorem addMany_messages (steps : List (Nat × String × String)) (ctx : DialogContext)
    (hL : 1 ≤ ctx.max_length) (hlen : ctx.messages.length ≤ ctx.max_length) :
    (addMany ctx steps).max_length = ctx.max_length ∧
      (addMany ctx steps).messages
        = keepLast ctx.max_length (ctx.messages ++ steps.map mkStep) := by
  induction steps generalizing ctx with
  | nil =>
    exact ⟨rfl, by rw [List.map_nil, List.append_nil, keepLast_of_le hlen]; rfl⟩
  | cons s rest ih =>
    have hml : (ctx.add_message s.1 s.2.1 s.2.2).max_length = ctx.max_length :=
      add_message_max_length _ _ _ _
    have hmsgs := add_message_messages s.1 s.2.1 s.2.2 ctx hL
    have hlen' : (ctx.add_message s.1 s.2.1 s.2.2).messages.length
        ≤ (ctx.add_message s.1 s.2.1 s.2.2).max_length := by
      rw [hmsgs, hml, keepLast_length]
      omega
    have := ih (ctx.add_message s.1 s.2.1 s.2.2) (by rw [hml]; exact hL) hlen'
    rw [hml] at this
    refine ⟨this.1, ?_⟩
    rw [show addMany ctx (s :: rest) = addMany (ctx.add_message s.1 s.2.1 s.2.2) rest from rfl,
      this.2, hmsgs, keepLast_append_keepLast, List.append_assoc]
    rfl

/-- C1, counterexample: with configured cap `max_length = 0` (allowed by the
constructor) a single append makes the history length 1, because the Python
truncation slice `messages[-0:]` is `messages[0:]` and keeps everything; the
claimed invariant `len(messages) <= max_length` fails. -/
theorem C1_counterexample :
    ¬ (((DialogContext.init 1 0 3600 0).add_message 1 "user" "hi").messages.length
        ≤ (DialogContext.init 1 0 3600 0).max_length) := by
  decide

/-- C1 (amended: cap at least one): for every context configured with cap
`L ≥ 1` and every sequence of `N > L` appends via `add_message`, the history
length never exceeds `L` at any intermediate point, and afterwards the
history is exactly the `L` most recently appended messages in append
order. -/
theorem C1_add_message_fifo_cap (u : Int) (tmo t0 L : Nat) (steps : List (Nat × String × String))
    (hL : 1 ≤ L) (hN : L < steps.length) :
    (∀ n : Nat,
      (addMany (DialogContext.init u L tmo t0) (steps.take n)).messages.length ≤ L) ∧
    (addMany (DialogContext.init u L tmo t0) steps).messages
      = (steps.drop (steps.length - L)).map mkStep ∧
    (addMany (DialogContext.init u L tmo t0) steps).messages.length = L := by
  have hinit : (DialogContext.init u L tmo t0).messages.length ≤ L := by
    simp [DialogContext.init]
  refine ⟨?_, ?_, ?_⟩
  · intro n
    have h := addMany_messages (steps.take n) (DialogContext.init u L tmo t0) hL hinit
    rw [h.2, keepLast_length]
    simp [DialogContext.init]
  · have h := addMany_messages steps (DialogContext.init u L tmo t0) hL hinit
    rw [h.2]
    show keepLast L ([] ++ steps.map mkStep) = _
    rw [List.nil_append]
    unfold keepLast
    rw [← List.map_drop, List.length_map]
  · have h := addMany_messages steps (DialogContext.init u L tmo t0) hL hinit
    rw [h.2]
    show (keepLast L ([] ++ steps.map mkStep)).length = L
    rw [List.nil_append, keepLast_length, List.length_map]
    omega

/-- C1 witness: a concrete cap-1 context with two appends realizes the
hypotheses of `C1_add_message_fifo_cap`. -/
theorem C1_witness :
    (1 ≤ 1 ∧ 1 < ([(5, "user", "a"), (6, "user", "b")] : List (Nat × String × String)).length) ∧
    (addMany (DialogContext.init 7 1 3600 0) [(5, "user", "a"), (6, "user", "b")]).messages
      = [⟨"user", "b", 6⟩] := by
  refine ⟨⟨by decide, by decide⟩, ?_⟩
  have h := (C1_add_message_fifo_cap 7 3600 0 1 [(5, "user", "a"), (6, "user", "b")]
    (by decide) (by decide)).2.1
  rw [h]
  decide

/-! ### Claim C5: reset semantics of `clear_user_context` -/

theorem lookup_store (cm : ContextManager) (u : Int) (ctx : DialogContext) :
    (cm.store u ctx).lookup u = some ctx := by
  unfold ContextManager.store ContextManager.lookup
  simp [List.find?]

/-- C5, counterexample: `clear_history` sets `updated_at = datetime.now()`,
so clearing a context whose `updated_at` was 100 at instant 200 leaves
`updated_at = 200`, not the stale 100 the claim asserts — the expiry timer
IS restarted by the reset. -/
theorem C5_counterexample :
    ((ContextManager.clear_user_context 200 1
        ⟨10, 3600, [(1, ⟨1, 10, 3600, 0, 100, [⟨"user", "hi", 100⟩]⟩)]⟩).2.lookup 1).map
        DialogContext.updated_at = some 200 ∧
    ((⟨10, 3600, [(1, ⟨1, 10, 3600, 0, 100, [⟨"user", "hi", 100⟩]⟩)]⟩ :
        ContextManager).lookup 1).map DialogContext.updated_at = some 100 := by
  decide

/-- C5 (amended): `clear_user_context` empties the message sequence and
returns `true` when a context record exists (`false` otherwise), keeps the
record itself, and refreshes `updated_at` to the instant of the clear — so
the expiry timer IS restarted by the reset. -/
theorem C5_clear_resets_timer (now : Nat) (u : Int) (cm : ContextManager) :
    (∀ ctx : DialogContext, cm.lookup u = some ctx →
      (cm.clear_user_context now u).1 = true ∧
      (cm.clear_user_context now u).2.lookup u
        = some { ctx with messages := [], updated_at := now }) ∧
    (cm.lookup u = none → cm.clear_user_context now u = (false, cm)) := by
  constructor
  · intro ctx h
    unfold ContextManager.clear_user_context
    rw [h]
    exact ⟨rfl, lookup_store cm u (ctx.clear_history now)⟩
  · intro h
    unfold ContextManager.clear_user_context
    rw [h]

/-- C5 witness: `C5_clear_resets_timer` applied to a concrete one-user
store. -/
theorem C5_witness :
    (ContextManager.clear_user_context 50 2
        ⟨10, 3600, [(2, ⟨2, 10, 3600, 0, 10, [⟨"user", "q", 10⟩]⟩)]⟩).1 = true ∧
    (ContextManager.clear_user_context 50 2
        ⟨10, 3600, [(2, ⟨2, 10, 3600, 0, 10, [⟨"user", "q", 10⟩]⟩)]⟩).2.lookup 2
      = some ⟨2, 10, 3600, 0, 50, []⟩ := by
  have h := (C5_clear_resets_timer 50 2
      ⟨10, 3600, [(2, ⟨2, 10, 3600, 0, 10, [⟨"user", "q", 10⟩]⟩)]⟩).1
    ⟨2, 10, 3600, 0, 10, [⟨"user", "q", 10⟩]⟩ (by decide)
  exact ⟨h.1, h.2⟩

/-! ### Claim C8: the repeated-character threshold of `is_valid_message` -/

/-- C8: the source comment documents the spam check as "10+ identical
characters in a row", but the compiled regex `(.)\1{10,}` only matches 11 or
more: a run of exactly 10 identical characters is accepted as valid, a run
of 11 is rejected. -/
theorem C8_run_threshold :
    is_valid_message (List.replicate 10 'a') = (true, "OK") ∧
    is_valid_message (List.replicate 11 'a')
      = (false, "Сообщение содержит слишком много повторяющихся символов") := by
  decide

/-! ### Claim C9: the excessive-uppercase check has no minimum length -/

/-- C9, counterexample: the single uppercase letter `"A"` is flagged by the
uppercase-ratio check alone (1 > 0.7·1), and hence rejected by
`contains_inappropriate_content` even with an empty denylist — there is no
minimum-length condition in the code. -/
theorem C9_counterexample :
    too_many_caps "A".data = true ∧ "A".data.length = 1 ∧
    contains_inappropriate_content [] "A".data = true := by
  decide

/-- C9 (amended): the excessive-uppercase check flags a message exactly
when strictly more than 70% of its characters are uppercase — the claimed
minimum-length condition does not exist in the code, so even a single
uppercase letter is rejected by this check alone — and every message over
the ratio is rejected by `contains_inappropriate_content` regardless of the
configured denylist. -/
theorem C9_uppercase_ratio (bw : List (List Char)) (text : List Char) (hne : text ≠ []) :
    (too_many_caps text = true ↔ 7 * text.length < 10 * text.countP isUpperCh) ∧
    (7 * text.length < 10 * text.countP isUpperCh →
      contains_inappropriate_content bw text = true) := by
  have hiff : too_many_caps text = true ↔ 7 * text.length < 10 * text.countP isUpperCh := by
    unfold too_many_caps
    exact ⟨of_decide_eq_true, decide_eq_true⟩
  refine ⟨hiff, ?_⟩
  intro hratio
  have hcaps : too_many_caps text = true := hiff.mpr hratio
  cases text with
  | nil => exact absurd rfl hne
  | cons a l =>
    show (List.any bw _ || too_many_caps (a :: l) || too_many_repeats _) = true
    rw [hcaps]
    simp

/-- C9 witness: `C9_uppercase_ratio` at the message `"AAAB"`, which is 75%
uppercase but not all-uppercase, and at an arbitrary denylist-free gate. -/
theorem C9_witness :
    ("AAAB".data ≠ [] ∧ 7 * "AAAB".data.length < 10 * "AAAB".data.countP isUpperCh) ∧
    contains_inappropriate_content [] "AAAB".data = true :=
  ⟨⟨by decide, by decide⟩,
    (C9_uppercase_ratio [] "AAAB".data (by decide)).2 (by decide)⟩

/-! ### Claim C10: what the digit/`xx` regex patterns really reject -/

theorem digit_not_latin {c : Char} (h : isAsciiDigit c = true) :
    isLatinLetter c = false := by
  simp only [isAsciiDigit, Bool.and_eq_true, decide_eq_true_eq] at h
  apply Bool.eq_false_iff.mpr
  intro hcontra
  simp only [isLatinLetter, Bool.or_eq_true, Bool.and_eq_true, decide_eq_true_eq] at hcontra
  omega

theorem latin_not_digit {c : Char} (h : isLatinLetter c = true) :
    isAsciiDigit c = false := by
  simp only [isLatinLetter, Bool.or_eq_true, Bool.and_eq_true, decide_eq_true_eq] at h
  apply Bool.eq_false_iff.mpr
  intro hcontra
  simp only [isAsciiDigit, Bool.and_eq_true, decide_eq_true_eq] at hcontra
  omega

/-- Any word run of the shape latin* digit{≥2} latin* matches the compiled
pattern `[a-z]*[0-9]{2,}[a-z]*` in full (the greedy decomposition used by
`matchesDigitRegex` recovers exactly this split because the two character
classes are disjoint). -/
theorem matchesDigitRegex_of_shape (a b c : List Char)
    (ha : ∀ x ∈ a, isLatinLetter x = true) (hb : ∀ x ∈ b, isAsciiDigit x = true)
    (hb2 : 2 ≤ b.length) (hc : ∀ x ∈ c, isLatinLetter x = true) :
    matchesDigitRegex (a ++ b ++ c) = true := by
  obtain ⟨d, b', rfl⟩ : ∃ d b', b = d :: b' := by
    cases b with
    | nil => simp at hb2
    | cons d b' => exact ⟨d, b', rfl⟩
  have hneg1 : ¬ isLatinLetter d = true := by
    rw [digit_not_latin (hb d (by simp))]; simp
  have htw1 : (a ++ (d :: b') ++ c).takeWhile isLatinLetter = a := by
    rw [List.append_assoc, List.takeWhile_append_of_pos ha, List.cons_append,
      List.takeWhile_cons_of_neg hneg1, List.append_nil]
  have htw2 : ((d :: b') ++ c).takeWhile isAsciiDigit = d :: b' := by
    rw [List.takeWhile_append_of_pos hb]
    cases c with
    | nil => rw [List.takeWhile_nil, List.append_nil]
    | cons e c' =>
      have hneg2 : ¬ isAsciiDigit e = true := by
        rw [latin_not_digit (hc e (by simp))]; simp
      rw [List.takeWhile_cons_of_neg hneg2, List.append_nil]
  unfold matchesDigitRegex
  simp only [htw1]
  rw [List.append_assoc, List.drop_left]
  simp only [htw2]
  rw [List.drop_left]
  rw [Bool.and_eq_true]
  exact ⟨decide_eq_true hb2, List.all_eq_true.mpr hc⟩

theorem contains_bad_words_of_run (bw : List (List Char)) (text r : List Char)
    (hr : r ∈ wordRuns text) (hm : matchesDigitRegex r = true) :
    contains_bad_words bw text = true := by
  cases text with
  | nil => simp [wordRuns, wordRunsGo, List.isEmpty] at hr
  | cons d rest =>
    show (if (d :: rest).isEmpty then false else _) = true
    rw [if_neg (by simp)]
    have hlast : ((wordRuns (d :: rest)).any matchesDigitRegex) = true :=
      List.any_eq_true.mpr ⟨r, hr, hm⟩
    rw [hlast]
    simp

theorem contains_bad_words_of_run_x (bw : List (List Char)) (text r : List Char)
    (hr : r ∈ wordRuns text) (hm : matchesXRegex r = true) :
    contains_bad_words bw text = true := by
  cases text with
  | nil => simp [wordRuns, wordRunsGo, List.isEmpty] at hr
  | cons d rest =>
    show (if (d :: rest).isEmpty then false else _) = true
    rw [if_neg (by simp)]
    have hx : ((wordRuns (d :: rest)).any matchesXRegex) = true :=
      List.any_eq_true.mpr ⟨r, hr, hm⟩
    rw [hx]
    simp

theorem hasDoubleX_append (u v : List Char) (x1 x2 : Char) (h1 : isXCh x1 = true)
    (h2 : isXCh x2 = true) : hasDoubleX (u ++ x1 :: x2 :: v) = true := by
  induction u with
  | nil =>
    show (isXCh x1 && isXCh x2 || hasDoubleX (x2 :: v)) = true
    rw [h1, h2]
    simp
  | cons y u' ih =>
    obtain ⟨w, ws, hw⟩ : ∃ w ws, u' ++ x1 :: x2 :: v = w :: ws := by
      cases u' with
      | nil => exact ⟨x1, x2 :: v, rfl⟩
      | cons a t => exact ⟨a, t ++ x1 :: x2 :: v, rfl⟩
    show hasDoubleX (y :: (u' ++ x1 :: x2 :: v)) = true
    rw [hw]
    show (isXCh y && isXCh w || hasDoubleX (w :: ws)) = true
    rw [← hw, ih]
    simp

/-- C10, counterexample: `"_25"` contains two consecutive decimal digits,
yet `contains_bad_words` does not reject it: the underscore is a word
character, so no `\b` word boundary separates it from the digits and the
pattern `\b[a-z]*[0-9]{2,}[a-z]*\b` cannot match. -/
theorem C10_counterexample :
    hasTwoConsecDigits "_25".data = true ∧
    contains_bad_words [] "_25".data = false := by
  decide

/-- C10 (amended): `contains_bad_words` (and hence `filter_message`
rejection) returns `true`, regardless of the configured denylist, whenever
some maximal word-character run of the text either has the shape latin
letters, then two or more consecutive decimal digits, then latin letters —
e.g. a free-standing number such as `"25"` — or consists of latin letters
only and contains two consecutive `x`/`X` characters. (Both patterns are
anchored at `\b` word boundaries: in `"_25"` the underscore joins the
digits' word run, no boundary precedes them, and that text is not flagged —
see the counterexample.) -/
theorem C10_patterns_reject (bw : List (List Char)) (text r : List Char)
    (hr : r ∈ wordRuns text) :
    (∀ a b c, r = a ++ b ++ c →
      (∀ x ∈ a, isLatinLetter x = true) → (∀ x ∈ b, isAsciiDigit x = true) →
      2 ≤ b.length → (∀ x ∈ c, isLatinLetter x = true) →
      contains_bad_words bw text = true) ∧
    ((∀ x ∈ r, isLatinLetter x = true) →
      (∃ u x1 x2 v, r = u ++ x1 :: x2 :: v ∧ isXCh x1 = true ∧ isXCh x2 = true) →
      contains_bad_words bw text = true) := by
  constructor
  · intro a b c hsplit ha hb hb2 hc
    apply contains_bad_words_of_run bw text r hr
    rw [hsplit]
    exact matchesDigitRegex_of_shape a b c ha hb hb2 hc
  · intro hall hxx
    obtain ⟨u, x1, x2, v, hsplit, h1, h2⟩ := hxx
    apply contains_bad_words_of_run_x bw text r hr
    unfold matchesXRegex
    rw [Bool.and_eq_true]
    refine ⟨List.all_eq_true.mpr hall, ?_⟩
    rw [hsplit]
    exact hasDoubleX_append u v x1 x2 h1 h2

/-- C10 witness: the benign message `"мне 25 лет"` is rejected because its
word run `"25"` is two consecutive digits between word boundaries, and
`"ну xx же"` is rejected because its all-latin word run `"xx"` contains a
double `x`. -/
theorem C10_witness :
    ("25".data ∈ wordRuns "мне 25 лет".data ∧ "xx".data ∈ wordRuns "ну xx же".data) ∧
    contains_bad_words [] "мне 25 лет".data = true ∧
    contains_bad_words [] "ну xx же".data = true :=
  ⟨⟨by decide, by decide⟩,
    (C10_patterns_reject [] "мне 25 лет".data "25".data (by decide)).1
      [] "25".data [] (by decide) (by decide) (by decide) (by decide) (by decide),
    (C10_patterns_reject [] "ну xx же".data "xx".data (by decide)).2
      (by decide) ⟨[], 'x', 'x', [], by decide, by decide, by decide⟩⟩

/-! ### Claim C2: behaviour when every attempt times out -/

/-- C2: when all `MAX_RETRIES = 3` attempts raise a network timeout,
`generate_response` returns `config.MESSAGES['api_timeout']` as an ordinary
string — not `None` as its docstring specifies for errors — and
`process_message` therefore treats it as a successful reply: it returns the
timeout text AND appends it to the user's history as an assistant
message. -/
theorem C2_timeout_reply_recorded :
    (process_message [] 3 0 [] [.timeout, .timeout, .timeout] 1 "hi" ⟨10, 3600, []⟩).reply
      = msg_api_timeout ∧
    ((process_message [] 3 0 [] [.timeout, .timeout, .timeout] 1 "hi"
        ⟨10, 3600, []⟩).cm.lookup 1).map DialogContext.messages
      = some [⟨"user", "hi", 0⟩, ⟨"assistant", msg_api_timeout, 0⟩] ∧
    (generate_response 3 0 [] [⟨"user", "hi", 0⟩] [.timeout, .timeout, .timeout]).reply
      = some msg_api_timeout := by
  refine ⟨rfl, ?_, rfl⟩
  decide

/-! ### Claims C3 and C4: caching and retry/backoff of `generate_response` -/

theorem joinStrings_length_ge (sep a : String) (rest : List String) :
    a.length ≤ (joinStrings sep (a :: rest)).length := by
  cases rest with
  | nil => exact Nat.le_refl a.length
  | cons b r =>
    show a.length ≤ (a ++ sep ++ joinStrings sep (b :: r)).length
    rw [String.length_append, String.length_append]
    omega

/-- The prompt builder `_build_prompt` never renders the empty string (the greeting prompt and
the system preamble are both nonempty), so the early-return guard
`if not prompt` of the retry loop is dead code. -/
theorem build_prompt_ne_empty (h : List Message) : _build_prompt h ≠ "" := by
  intro hcontra
  cases h with
  | nil => exact absurd hcontra (by decide)
  | cons m rest =>
    have hlen := joinStrings_length_ge "\n" systemPreamble
      ((pyTakeLast 6 (m :: rest)).filterMap renderMsg ++ ["Ассистент:"])
    rw [show _build_prompt (m :: rest)
        = joinStrings "\n" (systemPreamble ::
            ((pyTakeLast 6 (m :: rest)).filterMap renderMsg ++ ["Ассистент:"])) from rfl]
      at hcontra
    rw [hcontra] at hlen
    exact absurd hlen (by decide)

/-- C3: if a `generate_response` call succeeded with text `t` and left a
cache from which the key of the same history still answers `t` (a live
entry within the 300-second TTL), then a second call with the identical
history returns exactly `t` while performing no network attempt, no backoff
wait and no cache change — whatever the network would have done. -/
theorem C3_cache_round_trip (mr now1 now2 : Nat) (c0 : Cache) (h : List Message)
    (outs outs2 : List Outcome) (t : String)
    (hsucc : (generate_response mr now1 c0 h outs).reply = some t)
    (hstore : cacheLookup now2 (generate_response mr now1 c0 h outs).cache (cache_key h)
      = some t) :
    generate_response mr now2 ((generate_response mr now1 c0 h outs).cache) h outs2
      = ⟨some t, [], (generate_response mr now1 c0 h outs).cache, 0⟩ := by
  have hunfold : generate_response mr now2 ((generate_response mr now1 c0 h outs).cache) h outs2
      = match cacheLookup now2 ((generate_response mr now1 c0 h outs).cache) (cache_key h) with
        | some v => ⟨some v, [], (generate_response mr now1 c0 h outs).cache, 0⟩
        | none => genAttempts mr now2 (cache_key h) h 0 outs2
            ((generate_response mr now1 c0 h outs).cache) [] 0 := rfl
  rw [hunfold, hstore]

/-- C3 witness: a first call that succeeds on one attempt stores its cleaned
text; the second call at the same instant answers from the cache. -/
theorem C3_witness :
    ((generate_response 1 0 [] [⟨"user", "hi", 0⟩]
        [.http 200 (.objGenerated "hi")]).reply = some "hi." ∧
      cacheLookup 0 (generate_response 1 0 [] [⟨"user", "hi", 0⟩]
          [.http 200 (.objGenerated "hi")]).cache (cache_key [⟨"user", "hi", 0⟩])
        = some "hi.") ∧
    generate_response 1 0 ((generate_response 1 0 [] [⟨"user", "hi", 0⟩]
        [.http 200 (.objGenerated "hi")]).cache) [⟨"user", "hi", 0⟩] [.timeout]
      = ⟨some "hi.", [],
          (generate_response 1 0 [] [⟨"user", "hi", 0⟩]
            [.http 200 (.objGenerated "hi")]).cache, 0⟩ :=
  ⟨⟨by decide, by decide⟩,
    C3_cache_round_trip 1 0 0 [] [⟨"user", "hi", 0⟩] [.http 200 (.objGenerated "hi")]
      [.timeout] "hi." (by decide) (by decide)⟩

/-- C4: with `MAX_RETRIES = 3`, HTTP 503 on the first two attempts and
HTTP 200 with a payload whose extracted text is the truthy `t` on the third
attempt, `generate_response` returns the cleaned text of the third attempt,
stores it in the cache, performs three network calls and exactly the two
backoff waits `5` and `10` seconds (the `5 * attempt_number` schedule). -/
theorem C4_retry_backoff (now : Nat) (c0 : Cache) (h : List Message)
    (p1 p2 p3 : RespPayload) (t : String)
    (hmiss : cacheLookup now c0 (cache_key h) = none)
    (hext : _extract_generated_text p3 = some t) (ht : ¬ t = "") :
    generate_response 3 now c0 h [.http 503 p1, .http 503 p2, .http 200 p3]
      = ⟨some (cleanResponseS t), [5, 10],
          cacheInsert now c0 (cache_key h) (cleanResponseS t), 3⟩ := by
  have hunfold : generate_response 3 now c0 h [.http 503 p1, .http 503 p2, .http 200 p3]
      = match cacheLookup now c0 (cache_key h) with
        | some v => ⟨some v, [], c0, 0⟩
        | none => genAttempts 3 now (cache_key h) h 0
            [.http 503 p1, .http 503 p2, .http 200 p3] c0 [] 0 := rfl
  rw [hunfold, hmiss]
  have hp := build_prompt_ne_empty h
  simp +decide only [genAttempts, hext, ht, hp]
  simp

/-- C4 witness: a concrete valid third-attempt payload realizes the
hypotheses of `C4_retry_backoff`. -/
theorem C4_witness :
    (cacheLookup 0 [] (cache_key []) = none ∧
      _extract_generated_text (.objGenerated "Привет") = some "Привет" ∧
      ¬ ("Привет" : String) = "") ∧
    generate_response 3 0 [] []
        [.http 503 .other, .http 503 .other, .http 200 (.objGenerated "Привет")]
      = ⟨some (cleanResponseS "Привет"), [5, 10],
          cacheInsert 0 [] (cache_key []) (cleanResponseS "Привет"), 3⟩ :=
  ⟨⟨by decide, by decide, by decide⟩,
    C4_retry_backoff 0 [] [] .other .other (.objGenerated "Привет") "Привет"
      (by decide) (by decide) (by decide)⟩

/-! ### Shared text lemmas: stripping -/

theorem rstrip_cons_of_ne_nil (y : Char) (rest : List Char) (h : rstrip rest ≠ []) :
    rstrip (y :: rest) = y :: rstrip rest := by
  obtain ⟨z, zs, hz⟩ : ∃ z zs, rstrip rest = z :: zs := by
    cases hrr : rstrip rest with
    | nil => exact absurd hrr h
    | cons z zs => exact ⟨z, zs, rfl⟩
  show (match rstrip rest with
    | [] => if isPyWs y then [] else [y]
    | r => y :: r) = y :: rstrip rest
  rw [hz]

theorem rstrip_concat {c : Char} (hc : isPyWs c = false) (ys : List Char) :
    rstrip (ys ++ [c]) = ys ++ [c] := by
  induction ys with
  | nil =>
    show (match rstrip [] with
      | [] => if isPyWs c then [] else [c]
      | r => c :: r) = [] ++ [c]
    rw [show rstrip [] = [] from rfl]
    simp [hc]
  | cons y ys ih =>
    rw [List.cons_append, rstrip_cons_of_ne_nil y (ys ++ [c]) (by rw [ih]; simp), ih]

theorem rstrip_shape (cs : List Char) :
    rstrip cs = [] ∨ ∃ zs c, rstrip cs = zs ++ [c] ∧ isPyWs c = false := by
  induction cs with
  | nil => exact Or.inl rfl
  | cons y rest ih =>
    rcases ih with h0 | ⟨zs, c, hz, hcw⟩
    · have hy : rstrip (y :: rest)
          = (if isPyWs y then [] else [y]) := by
        show (match rstrip rest with
          | [] => if isPyWs y then [] else [y]
          | r => y :: r) = _
        rw [h0]
      by_cases hw : isPyWs y = true
      · exact Or.inl (by rw [hy, if_pos hw])
      · refine Or.inr ⟨[], y, ?_, by simpa using hw⟩
        rw [hy, if_neg hw]
        rfl
    · refine Or.inr ⟨y :: zs, c, ?_, hcw⟩
      rw [rstrip_cons_of_ne_nil y rest (by rw [hz]; simp), hz]
      rfl

theorem rstrip_head_nonws {cs : List Char} (h : headIsWs cs = false) :
    headIsWs (rstrip cs) = false := by
  cases cs with
  | nil => rfl
  | cons y rest =>
    have hw : isPyWs y = false := h
    cases hrr : rstrip rest with
    | nil =>
      show headIsWs (match rstrip rest with
        | [] => if isPyWs y then [] else [y]
        | r => y :: r) = false
      rw [hrr]
      simp [hw, headIsWs]
    | cons z zs =>
      rw [rstrip_cons_of_ne_nil y rest (by rw [hrr]; simp)]
      exact h

theorem lstrip_head (cs : List Char) : headIsWs (lstrip cs) = false := by
  induction cs with
  | nil => rfl
  | cons c rest ih =>
    by_cases hw : isPyWs c = true
    · show headIsWs ((c :: rest).dropWhile isPyWs) = false
      rw [List.dropWhile_cons, if_pos hw]
      exact ih
    · show headIsWs ((c :: rest).dropWhile isPyWs) = false
      rw [List.dropWhile_cons, if_neg hw]
      show isPyWs c = false
      simpa using hw

theorem pyStrip_head (cs : List Char) : headIsWs (pyStrip cs) = false :=
  rstrip_head_nonws (lstrip_head cs)

theorem pyStrip_shape (cs : List Char) :
    pyStrip cs = [] ∨ ∃ zs c, pyStrip cs = zs ++ [c] ∧ isPyWs c = false :=
  rstrip_shape (lstrip cs)

/-- Stripping never disturbs a final non-whitespace character: the result is
still some prefix followed by that character. -/
theorem strip_ends {c : Char} (hc : isPyWs c = false) (ys : List Char) :
    ∃ us, pyStrip (ys ++ [c]) = us ++ [c] := by
  have hl : ∃ us, lstrip (ys ++ [c]) = us ++ [c] := by
    show ∃ us, (ys ++ [c]).dropWhile isPyWs = us ++ [c]
    rw [List.dropWhile_append]
    by_cases he : (ys.dropWhile isPyWs).isEmpty
    · rw [if_pos he]
      refine ⟨[], ?_⟩
      rw [List.dropWhile_cons, if_neg (by simp [hc])]
      rfl
    · rw [if_neg he]
      exact ⟨ys.dropWhile isPyWs, rfl⟩
  obtain ⟨us, hus⟩ := hl
  refine ⟨us, ?_⟩
  show rstrip (lstrip (ys ++ [c])) = us ++ [c]
  rw [hus, rstrip_concat hc]

/-- A strip-identity: a list with non-whitespace edges is fixed by
`pyStrip`. -/
theorem pyStrip_eq_self {cs : List Char} (hhead : headIsWs cs = false)
    (hlast : cs = [] ∨ ∃ zs c, cs = zs ++ [c] ∧ isPyWs c = false) :
    pyStrip cs = cs := by
  have hls : lstrip cs = cs := by
    cases cs with
    | nil => rfl
    | cons y rest =>
      show (y :: rest).dropWhile isPyWs = y :: rest
      rw [List.dropWhile_cons, if_neg (by simp [show isPyWs y = false from hhead])]
  show rstrip (lstrip cs) = cs
  rw [hls]
  rcases hlast with h0 | ⟨zs, c, hz, hcw⟩
  · rw [h0]; rfl
  · rw [hz, rstrip_concat hcw]

/-! ### Claim C6: `_clean_response` terminal punctuation -/

theorem terminal_not_ws {c : Char} (h : terminalPunct.contains c = true) :
    isPyWs c = false := by
  have hmem : c ∈ terminalPunct := by simpa using h
  simp only [terminalPunct, List.mem_cons, List.not_mem_nil, or_false] at hmem
  rcases hmem with rfl | rfl | rfl | rfl | rfl | rfl | rfl <;> decide

theorem splitAux_ne_nil_of_acc (cs : List Char) :
    ∀ acc : List Char, acc ≠ [] → splitAux cs acc ≠ [] := by
  induction cs with
  | nil =>
    intro acc hacc
    show (if acc.isEmpty then [] else [acc.reverse]) ≠ []
    rw [if_neg (by simpa [List.isEmpty_iff] using hacc)]
    simp
  | cons c rest ih =>
    intro acc hacc
    show (if isPyWs c then
        (if acc.isEmpty then splitAux rest [] else acc.reverse :: splitAux rest [])
      else splitAux rest (c :: acc)) ≠ []
    by_cases hw : isPyWs c = true
    · rw [if_pos hw, if_neg (by simpa [List.isEmpty_iff] using hacc)]
      simp
    · rw [if_neg hw]
      exact ih (c :: acc) (by simp)

theorem splitAux_ne_nil_of_mem (cs : List Char) :
    ∀ acc c, c ∈ cs → isPyWs c = false → splitAux cs acc ≠ [] := by
  induction cs with
  | nil => intro _ c hmem _; simp at hmem
  | cons d rest ih =>
    intro acc c hmem hcw
    show (if isPyWs d then
        (if acc.isEmpty then splitAux rest [] else acc.reverse :: splitAux rest [])
      else splitAux rest (d :: acc)) ≠ []
    by_cases hw : isPyWs d = true
    · have hmem' : c ∈ rest := by
        rcases List.mem_cons.mp hmem with rfl | h
        · rw [hw] at hcw; exact absurd hcw (by simp)
        · exact h
      by_cases he : acc.isEmpty
      · rw [if_pos hw, if_pos he]
        exact ih [] c hmem' hcw
      · rw [if_pos hw, if_neg he]
        simp
    · rw [if_neg hw]
      exact splitAux_ne_nil_of_acc rest (d :: acc) (by simp)

theorem splitAux_words_ne_nil (cs : List Char) :
    ∀ acc, ∀ w ∈ splitAux cs acc, w ≠ [] := by
  induction cs with
  | nil =>
    intro acc w hw
    by_cases he : acc.isEmpty
    · rw [show splitAux [] acc = (if acc.isEmpty then [] else [acc.reverse]) from rfl,
        if_pos he] at hw
      simp at hw
    · rw [show splitAux [] acc = (if acc.isEmpty then [] else [acc.reverse]) from rfl,
        if_neg he] at hw
      have : w = acc.reverse := by simpa using hw
      subst this
      simp only [ne_eq, List.reverse_eq_nil_iff]
      simpa [List.isEmpty_iff] using he
  | cons c rest ih =>
    intro acc w hw
    rw [show splitAux (c :: rest) acc = (if isPyWs c then
        (if acc.isEmpty then splitAux rest [] else acc.reverse :: splitAux rest [])
      else splitAux rest (c :: acc)) from rfl] at hw
    by_cases hws : isPyWs c = true
    · rw [if_pos hws] at hw
      by_cases he : acc.isEmpty
      · rw [if_pos he] at hw
        exact ih [] w hw
      · rw [if_neg he] at hw
        rcases List.mem_cons.mp hw with rfl | h
        · simp only [ne_eq, List.reverse_eq_nil_iff]
          simpa [List.isEmpty_iff] using he
        · exact ih [] w h
    · rw [if_neg hws] at hw
      exact ih (c :: acc) w hw

theorem joinSp_ne_nil (ws : List (List Char)) (hne : ws ≠ [])
    (hw : ∀ w ∈ ws, w ≠ []) : joinSp ws ≠ [] := by
  match ws with
  | [] => exact absurd rfl hne
  | [w] => exact hw w (by simp)
  | w :: b :: r =>
    show w ++ ' ' :: joinSp (b :: r) ≠ []
    simp

theorem joinWords_ne_nil {cs : List Char} {c : Char} (hmem : c ∈ cs)
    (hcw : isPyWs c = false) : joinWords cs ≠ [] := by
  unfold joinWords pySplit
  exact joinSp_ne_nil _ (splitAux_ne_nil_of_mem cs [] c hmem hcw)
    (splitAux_words_ne_nil cs [])

/-- The core step of C6: appending the period when needed and then stripping
always leaves sentence-terminal punctuation at the end, for any nonempty
intermediate text. -/
theorem endsTerminal_strip_step (t2 : List Char) (hne : t2 ≠ []) :
    endsTerminal (pyStrip (if !t2.isEmpty && !endsTerminal t2 then t2 ++ ['.'] else t2))
      = true := by
  by_cases hterm : endsTerminal t2 = true
  · rw [if_neg (by simp [hterm])]
    obtain ⟨c, hc⟩ : ∃ c, t2.getLast? = some c := by
      cases hl : t2.getLast? with
      | none => exact absurd hl (by simpa [List.getLast?_eq_none_iff] using hne)
      | some c => exact ⟨c, rfl⟩
    have hcont : terminalPunct.contains c = true := by
      unfold endsTerminal at hterm
      rw [hc] at hterm
      exact hterm
    have hsplit : t2.dropLast ++ [c] = t2 := List.dropLast_append_getLast? c hc
    obtain ⟨us, hus⟩ := strip_ends (terminal_not_ws hcont) t2.dropLast
    rw [← hsplit, hus]
    unfold endsTerminal
    rw [List.getLast?_concat]
    exact hcont
  · rw [if_pos (by simp [List.isEmpty_iff, hne, hterm])]
    obtain ⟨us, hus⟩ := strip_ends (c := '.') (by decide) t2
    rw [hus]
    unfold endsTerminal
    rw [List.getLast?_concat]
    decide

/-- C6, counterexample: the single space `" "` is a non-empty input, but
`_clean_response` collapses it to the empty string, which does not end in
terminal punctuation. -/
theorem C6_counterexample :
    " ".data ≠ [] ∧ endsTerminal (_clean_response " ".data) = false := by
  decide

/-- C6 (amended: for every input containing at least one non-whitespace
character): `_clean_response` returns a string whose last character is one
of `. ! ? : ) ] \x7d` — whitespace-only inputs (still non-empty) collapse to
the empty string instead. -/
theorem C6_clean_ends_terminal (cs : List Char) (c0 : Char) (hmem : c0 ∈ cs)
    (hw : isPyWs c0 = false) : endsTerminal (_clean_response cs) = true := by
  have hne : cs ≠ [] := by
    intro h
    subst h
    simp at hmem
  have hie : cs.isEmpty = false := by
    cases cs with
    | nil => exact absurd rfl hne
    | cons a l => rfl
  have ht1ne : joinWords cs ≠ [] := joinWords_ne_nil hmem hw
  have hstep : _clean_response cs
      = pyStrip (if !(if 1000 < (joinWords cs).length then
            (joinWords cs).take 1000 ++ ['.', '.', '.'] else joinWords cs).isEmpty
          && !endsTerminal (if 1000 < (joinWords cs).length then
            (joinWords cs).take 1000 ++ ['.', '.', '.'] else joinWords cs) then
          (if 1000 < (joinWords cs).length then
            (joinWords cs).take 1000 ++ ['.', '.', '.'] else joinWords cs) ++ ['.']
        else (if 1000 < (joinWords cs).length then
            (joinWords cs).take 1000 ++ ['.', '.', '.'] else joinWords cs)) := by
    unfold _clean_response
    rw [hie]
    rfl
  rw [hstep]
  apply endsTerminal_strip_step
  by_cases hlen : 1000 < (joinWords cs).length
  · rw [if_pos hlen]
    simp
  · rw [if_neg hlen]
    exact ht1ne

/-- C6 witness: `C6_clean_ends_terminal` at the input `"hi"`. -/
theorem C6_witness :
    ('h' ∈ "hi".data ∧ isPyWs 'h' = false) ∧
    endsTerminal (_clean_response "hi".data) = true :=
  ⟨⟨by decide, by decide⟩, C6_clean_ends_terminal "hi".data 'h' (by decide) (by decide)⟩

/-! ### Claim C7: idempotence of `sanitize_text` -/

theorem headIsWs_collapseGo_true (cs : List Char) :
    headIsWs (collapseGo true cs) = false := by
  induction cs with
  | nil => rfl
  | cons c rest ih =>
    show headIsWs (if isPyWs c then collapseGo true rest else c :: collapseGo false rest) = false
    by_cases hw : isPyWs c = true
    · rw [if_pos hw]; exact ih
    · rw [if_neg hw]
      show isPyWs c = false
      simpa using hw

theorem collapsedOk_cons (c : Char) (rest : List Char) :
    collapsedOk (c :: rest)
      = (((!isPyWs c) || c = ' ') && (((!isPyWs c) || (!headIsWs rest)) && collapsedOk rest)) := by
  show (((!isPyWs c) || c = ' ') && ((!isPyWs c) || (!headIsWs rest)) && collapsedOk rest) = _
  rw [Bool.and_assoc]

theorem collapsedOk_collapseGo (cs : List Char) : ∀ b, collapsedOk (collapseGo b cs) = true := by
  induction cs with
  | nil => intro b; rfl
  | cons c rest ih =>
    intro b
    by_cases hw : isPyWs c = true
    · cases b with
      | true =>
        show collapsedOk (if isPyWs c then collapseGo true rest else c :: collapseGo false rest)
          = true
        rw [if_pos hw]
        exact ih true
      | false =>
        show collapsedOk (if isPyWs c then ' ' :: collapseGo true rest
          else c :: collapseGo false rest) = true
        rw [if_pos hw, collapsedOk_cons, headIsWs_collapseGo_true rest, ih true]
        decide
    · have hw' : isPyWs c = false := by simpa using hw
      show collapsedOk (if isPyWs c then
          (if b then collapseGo true rest else ' ' :: collapseGo true rest)
        else c :: collapseGo false rest) = true
      rw [if_neg hw, collapsedOk_cons, ih false]
      simp [hw']

theorem collapseGo_eq_self (cs : List Char) (h : collapsedOk cs = true) :
    collapseGo false cs = cs ∧ (headIsWs cs = false → collapseGo true cs = cs) := by
  induction cs with
  | nil => exact ⟨rfl, fun _ => rfl⟩
  | cons c rest ih =>
    rw [collapsedOk_cons] at h
    simp only [Bool.and_eq_true] at h
    obtain ⟨h1, h2, h3⟩ := h
    have IH := ih h3
    constructor
    · show (if isPyWs c then ' ' :: collapseGo true rest else c :: collapseGo false rest)
        = c :: rest
      by_cases hw : isPyWs c = true
      · have hsp : c = ' ' := by
          simpa [hw, Bool.not_eq_true'] using h1
        have hhr : headIsWs rest = false := by
          simpa [hw, Bool.not_eq_true'] using h2
        rw [if_pos hw, IH.2 hhr, hsp]
      · rw [if_neg hw, IH.1]
    · intro hh
      have hw : isPyWs c = false := hh
      show (if isPyWs c then collapseGo true rest else c :: collapseGo false rest) = c :: rest
      rw [if_neg (by simp [hw]), IH.1]

theorem collapseGo_concat {c : Char} (hc : isPyWs c = false) (ys : List Char) :
    ∀ b, ∃ zs, collapseGo b (ys ++ [c]) = zs ++ [c] := by
  induction ys with
  | nil =>
    intro b
    refine ⟨[], ?_⟩
    show (if isPyWs c then (if b then collapseGo true [] else ' ' :: collapseGo true [])
      else c :: collapseGo false []) = [] ++ [c]
    rw [if_neg (by simp [hc])]
    rfl
  | cons y ys ih =>
    intro b
    by_cases hw : isPyWs y = true
    · cases b with
      | true =>
        obtain ⟨zs, hzs⟩ := ih true
        refine ⟨zs, ?_⟩
        show (if isPyWs y then collapseGo true (ys ++ [c]) else y :: collapseGo false (ys ++ [c]))
          = zs ++ [c]
        rw [if_pos hw]
        exact hzs
      | false =>
        obtain ⟨zs, hzs⟩ := ih true
        refine ⟨' ' :: zs, ?_⟩
        show (if isPyWs y then ' ' :: collapseGo true (ys ++ [c])
          else y :: collapseGo false (ys ++ [c])) = (' ' :: zs) ++ [c]
        rw [if_pos hw, hzs]
        rfl
    · obtain ⟨zs, hzs⟩ := ih false
      refine ⟨y :: zs, ?_⟩
      show (if isPyWs y then (if b then collapseGo true (ys ++ [c])
          else ' ' :: collapseGo true (ys ++ [c]))
        else y :: collapseGo false (ys ++ [c])) = (y :: zs) ++ [c]
      rw [if_neg hw, hzs]
      rfl

theorem headIsWs_collapseGo_false {cs : List Char} (h : headIsWs cs = false) :
    headIsWs (collapseGo false cs) = false := by
  cases cs with
  | nil => rfl
  | cons c rest =>
    have hw : isPyWs c = false := h
    show headIsWs (if isPyWs c then ' ' :: collapseGo true rest
      else c :: collapseGo false rest) = false
    rw [if_neg (by simp [hw])]
    exact hw

theorem collapsedOk_append_left (a b : List Char) (h : collapsedOk (a ++ b) = true) :
    collapsedOk a = true := by
  induction a with
  | nil => rfl
  | cons c a' ih =>
    rw [List.cons_append, collapsedOk_cons] at h
    simp only [Bool.and_eq_true] at h
    obtain ⟨h1, h2, h3⟩ := h
    rw [collapsedOk_cons]
    simp only [Bool.and_eq_true]
    refine ⟨h1, ?_, ih h3⟩
    by_cases hw : isPyWs c = true
    · simp only [hw, Bool.not_true, Bool.false_or] at h2 ⊢
      cases a' with
      | nil => rfl
      | cons d a'' => exact h2
    · have hw' : isPyWs c = false := by simpa using hw
      simp [hw']

theorem collapsedOk_take (n : Nat) (cs : List Char) (h : collapsedOk cs = true) :
    collapsedOk (cs.take n) = true := by
  apply collapsedOk_append_left (cs.take n) (cs.drop n)
  rw [List.take_append_drop]
  exact h

theorem collapsedOk_append_dots (a : List Char) (h : collapsedOk a = true) :
    collapsedOk (a ++ ['.', '.', '.']) = true := by
  induction a with
  | nil => decide
  | cons c a' ih =>
    rw [collapsedOk_cons] at h
    simp only [Bool.and_eq_true] at h
    obtain ⟨h1, h2, h3⟩ := h
    rw [List.cons_append, collapsedOk_cons]
    simp only [Bool.and_eq_true]
    refine ⟨h1, ?_, ih h3⟩
    by_cases hw : isPyWs c = true
    · simp only [hw, Bool.not_true, Bool.false_or] at h2 ⊢
      cases a' with
      | nil => decide
      | cons d a'' => exact h2
    · have hw' : isPyWs c = false := by simpa using hw
      simp [hw']

/-- C7: `sanitize_text` is idempotent, including on over-long inputs where
the 1000-character truncation appends the ellipsis marker. -/
theorem C7_sanitize_idempotent (cs : List Char) :
    sanitize_text (sanitize_text cs) = sanitize_text cs := by
  have hok : collapsedOk (collapseWs (pyStrip cs)) = true := collapsedOk_collapseGo _ false
  have hhead : headIsWs (collapseWs (pyStrip cs)) = false :=
    headIsWs_collapseGo_false (pyStrip_head cs)
  have hshape : collapseWs (pyStrip cs) = []
      ∨ ∃ zs c, collapseWs (pyStrip cs) = zs ++ [c] ∧ isPyWs c = false := by
    rcases pyStrip_shape cs with h0 | ⟨zs, c, hz, hcw⟩
    · left
      rw [show collapseWs (pyStrip cs) = collapseGo false (pyStrip cs) from rfl, h0]
      rfl
    · right
      obtain ⟨us, hus⟩ := collapseGo_concat hcw zs false
      exact ⟨us, c,
        by rw [show collapseWs (pyStrip cs) = collapseGo false (pyStrip cs) from rfl, hz, hus],
        hcw⟩
  have hsan : sanitize_text cs = (if 1000 < (collapseWs (pyStrip cs)).length
      then (collapseWs (pyStrip cs)).take 1000 ++ ['.', '.', '.']
      else collapseWs (pyStrip cs)) := rfl
  by_cases hlen : 1000 < (collapseWs (pyStrip cs)).length
  · rw [hsan, if_pos hlen]
    set z := collapseWs (pyStrip cs) with hzdef
    have hzne : z ≠ [] := by
      intro h0
      rw [h0] at hlen
      simp at hlen
    obtain ⟨c, rest, hcons⟩ : ∃ c rest, z = c :: rest := List.exists_cons_of_ne_nil hzne
    have hheady : headIsWs (z.take 1000 ++ ['.', '.', '.']) = false := by
      rw [hcons, (by norm_num : (1000 : Nat) = 999 + 1), List.take_succ_cons]
      show isPyWs c = false
      rw [hcons] at hhead
      exact hhead
    have hshapey : ∃ zs c', z.take 1000 ++ ['.', '.', '.'] = zs ++ [c'] ∧ isPyWs c' = false :=
      ⟨z.take 1000 ++ ['.', '.'], '.', by rw [List.append_assoc]; rfl, by decide⟩
    have hoky : collapsedOk (z.take 1000 ++ ['.', '.', '.']) = true :=
      collapsedOk_append_dots _ (collapsedOk_take 1000 z hok)
    have hstripy : pyStrip (z.take 1000 ++ ['.', '.', '.']) = z.take 1000 ++ ['.', '.', '.'] :=
      pyStrip_eq_self hheady (Or.inr hshapey)
    have hcoly : collapseWs (z.take 1000 ++ ['.', '.', '.']) = z.take 1000 ++ ['.', '.', '.'] :=
      (collapseGo_eq_self _ hoky).1
    have hleny : (z.take 1000 ++ ['.', '.', '.']).length = 1003 := by
      rw [List.length_append, List.length_take]
      simp only [List.length_cons, List.length_nil]
      omega
    show (if 1000 < (collapseWs (pyStrip (z.take 1000 ++ ['.', '.', '.']))).length
        then (collapseWs (pyStrip (z.take 1000 ++ ['.', '.', '.']))).take 1000 ++ ['.', '.', '.']
        else collapseWs (pyStrip (z.take 1000 ++ ['.', '.', '.'])))
      = z.take 1000 ++ ['.', '.', '.']
    rw [hstripy, hcoly, if_pos (by rw [hleny]; norm_num)]
    congr 1
    exact List.take_left' (by rw [List.length_take]; omega)
  · rw [hsan, if_neg hlen]
    have hstrip : pyStrip (collapseWs (pyStrip cs)) = collapseWs (pyStrip cs) :=
      pyStrip_eq_self hhead hshape
    have hcol : collapseWs (pyStrip (collapseWs (pyStrip cs))) = collapseWs (pyStrip cs) := by
      rw [hstrip]
      exact (collapseGo_eq_self _ hok).1
    show (if 1000 < (collapseWs (pyStrip (collapseWs (pyStrip cs)))).length
        then (collapseWs (pyStrip (collapseWs (pyStrip cs)))).take 1000 ++ ['.', '.', '.']
        else collapseWs (pyStrip (collapseWs (pyStrip cs)))) = collapseWs (pyStrip cs)
    rw [hcol, if_neg hlen]

end Bot
